import Mathlib

/-!
Shallow embedding of the chunked upload/download server found in
src/main_async.py and src/main_multithread.py.

File contents are lists of byte values; the upload directory is an
association list from path strings to file contents.  Python integers are
Int, byte counts are Nat.  Each FastAPI handler becomes a pure function;
handlers that can mutate the store return the post-state paired with the
result, and every error branch returns the store it was given (the Python
code raises HTTPException before any write on those branches).
-/

/-- Model of file contents: one Nat per byte. -/
abbrev Bytes := List Nat

/-- Model of the storage directory: association list from path to contents. -/
abbrev FS := List (String × Bytes)

def UPLOAD_FOLDER : String := "uploads"

def CHUNK_SIZE : Nat := 1 * 1024 * 1024

def MAX_FILE_SIZE : Nat := 100 * 1024 * 1024

def MAX_PARTS : Nat := 100

/-- Model of os.path.exists / os.path.getsize: look a path up in the store. -/
def lookupFS : FS → String → Option Bytes
  | [], _ => none
  | (k, v) :: t, key => if k = key then some v else lookupFS t key

/-- Model of one open("ab") / write(content) cycle: append to the file at
`key`, creating it when absent. -/
def appendAssoc : FS → String → Bytes → FS
  | [], key, c => [(key, c)]
  | (k, v) :: t, key, c =>
      if k = key then (k, v ++ c) :: t else (k, v) :: appendAssoc t key c

/-- Model of os.path.join(a, b) as used here: an absolute second component
replaces the first, otherwise the components are joined with a slash. -/
def pathJoin (a b : String) : String :=
  if b.data.head? = some '/' then b else a ++ "/" ++ b

/-- Model of os.listdir(UPLOAD_FOLDER): the entries directly under the
upload directory, with the directory part stripped. -/
def listdirFS (fs : FS) : List String :=
  fs.filterMap (fun kv =>
    let d := UPLOAD_FOLDER.data ++ ['/']
    if d.isPrefixOf kv.1.data then
      let rest := kv.1.data.drop d.length
      if rest.contains '/' then none else some (String.mk rest)
    else none)

/-- The two JSON shapes the upload handlers return on success. -/
inductive UploadMsg where
  | complete
  | partUploaded (part_number total_parts : Int)
  deriving DecidableEq

structure UploadResp where
  message : UploadMsg
  filename : String
  deriving DecidableEq

/-- An HTTPException (or error JSONResponse): status code and detail. -/
inductive HErr where
  | http (status : Nat) (detail : String)
  deriving DecidableEq

/-- Outcome of a handler: an HTTP error or a value. -/
inductive Res (α : Type) where
  | error (e : HErr)
  | ok (val : α)
  deriving DecidableEq

/-- The two response shapes of the list_files handlers. -/
inductive ListResp where
  | message (detail : String)
  | files (names : List String)
  deriving DecidableEq

/-- Outcome of the Content-Length middleware. -/
inductive MwResult where
  | reject (status : Nat) (detail : String)
  | proceed
  deriving DecidableEq

/-- Characters Python's int() strips around a numeral. -/
def pyWS (c : Char) : Bool :=
  c = ' ' || c = '\t' || c = '\n' || c = '\r' || c = '\x0b' || c = '\x0c'

def pyStrip (l : List Char) : List Char :=
  ((l.dropWhile pyWS).reverse.dropWhile pyWS).reverse

/-- Digits of a base-10 numeral, allowing a single underscore between
digits as Python's int() does. -/
def parseDigits : Nat → List Char → Option Nat
  | acc, [] => some acc
  | acc, c :: rest =>
      if c.isDigit then parseDigits (acc * 10 + (c.toNat - 48)) rest
      else if c = '_' then
        match rest with
        | d :: rest' =>
            if d.isDigit then parseDigits (acc * 10 + (d.toNat - 48)) rest'
            else none
        | [] => none
      else none

def parseUnsigned : List Char → Option Nat
  | [] => none
  | c :: rest => if c.isDigit then parseDigits (c.toNat - 48) rest else none

/-- Model of Python's int(s) on a base-10 string: surrounding whitespace,
an optional sign, then digits; none when a ValueError would be raised. -/
def pyInt (l : List Char) : Option Int :=
  match pyStrip l with
  | '+' :: rest => (parseUnsigned rest).map Int.ofNat
  | '-' :: rest => (parseUnsigned rest).map (fun n => -(n : Int))
  | t => (parseUnsigned t).map Int.ofNat

/-- Model of the validate_content_length middleware, identical in both
source files: on a POST carrying a Content-Length header with a truthy
(non-empty) value, reject with 400 when the value exceeds CHUNK_SIZE or
fails to parse as an integer. -/
def validate_content_length (method : String) (hdr : Option String) : MwResult :=
  if method = "POST" then
    match hdr with
    | some content_length =>
        if content_length ≠ "" then
          match pyInt content_length.data with
          | some n =>
              if (CHUNK_SIZE : Int) < n then
                .reject 400 "Each part must not exceed 1 MB based on Content-Length."
              else .proceed
          | none => .reject 400 "Invalid Content-Length header."
        else .proceed
    | none => .proceed
  else .proceed

/-- Model of upload_part in src/main_async.py: validate total_parts, read
at most CHUNK_SIZE + 1 bytes, validate part size, then the quota, then
append and report completion. -/
def upload_part_async (fs : FS) (filename : String) (payload : Bytes)
    (part_number total_parts : Int) : FS × Res UploadResp :=
  if (MAX_PARTS : Int) < total_parts then
    (fs, .error (.http 400 "Total parts cannot exceed 100."))
  else
    let content := payload.take (CHUNK_SIZE + 1)
    if CHUNK_SIZE < content.length then
      (fs, .error (.http 400 "Each part must not exceed 1 MB."))
    else if content.length < CHUNK_SIZE ∧ part_number < total_parts then
      (fs, .error (.http 400 "Each part except the last must be exactly 1 MB."))
    else
      let file_location := pathJoin UPLOAD_FOLDER filename
      let current_file_size := ((lookupFS fs file_location).getD []).length
      if MAX_FILE_SIZE < current_file_size + content.length then
        (fs, .error (.http 413 "Total file size exceeds the allowed limit of 100 MB."))
      else
        let fs' := appendAssoc fs file_location content
        if part_number = total_parts then
          (fs', .ok ⟨.complete, filename⟩)
        else
          (fs', .ok ⟨.partUploaded part_number total_parts, filename⟩)

/-- Recursion worker for writeLoop: the fuel only bounds the number of
rounds (each round consumes at least one byte, so a payload's length is
always enough fuel) and never changes the result. -/
def writeLoopFuel : Nat → FS → String → Bytes → FS
  | 0, fs, _, _ => fs
  | _ + 1, fs, _, [] => fs
  | fuel + 1, fs, loc, p :: ps =>
      writeLoopFuel fuel (appendAssoc fs loc ((p :: ps).take CHUNK_SIZE)) loc
        ((p :: ps).drop CHUNK_SIZE)

/-- Model of the read/append loop in src/main_multithread.py upload_part:
read CHUNK_SIZE bytes at a time, appending each block until the stream is
exhausted. -/
def writeLoop (fs : FS) (loc : String) (payload : Bytes) : FS :=
  writeLoopFuel payload.length fs loc payload

/-- Model of upload_part in src/main_multithread.py: no validation at all,
append the whole payload, then report completion. -/
def upload_part_mt (fs : FS) (filename : String) (payload : Bytes)
    (part_number total_parts : Int) : FS × Res UploadResp :=
  let file_location := pathJoin UPLOAD_FOLDER filename
  let fs' := writeLoop fs file_location payload
  if part_number = total_parts then
    (fs', .ok ⟨.complete, filename⟩)
  else
    (fs', .ok ⟨.partUploaded part_number total_parts, filename⟩)

/-- Model of Python's range(0, stop, step) for a positive step. -/
def pyRange (stop step : Nat) : List Nat :=
  (List.range ((stop + step - 1) / step)).map (fun i => i * step)

/-- The chunks produced by iterating seek(start); read(c) over
range(0, content.length, c). -/
def chunksBy (c : Nat) (content : Bytes) : List Bytes :=
  (pyRange content.length c).map (fun start => (content.drop start).take c)

def downloadChunks (content : Bytes) : List Bytes := chunksBy CHUNK_SIZE content

/-- Model of download_file, identical logic in both source files: 404 when
the path does not exist, otherwise the ordered chunk sequence together
with the size and the suggested save-as name. -/
def download_file (fs : FS) (file_name : String) : Res (List Bytes × Nat × String) :=
  let file_path := pathJoin UPLOAD_FOLDER file_name
  match lookupFS fs file_path with
  | none => .error (.http 404 "File not found")
  | some content => .ok (downloadChunks content, content.length, file_name)

/-- Model of list_files, identical in both source files: a message object
when the directory is empty, the name list otherwise. -/
def list_files (fs : FS) : ListResp :=
  let files := listdirFS fs
  if files = [] then .message "No files found." else .files files

def lowerChars (s : String) : List Char := s.data.map Char.toLower

/-- Model of Python's substring test `needle in hay`. -/
def containsList : List Char → List Char → Bool
  | [], needle => needle.isEmpty
  | a :: t, needle => needle.isPrefixOf (a :: t) || containsList t needle

/-- Model of search_file in src/main_async.py: reject an empty query, then
filter the directory listing by case-insensitive substring, 404 when the
result is empty. -/
def search_file_async (fs : FS) (file_name : String) : Res (List String) :=
  if file_name = "" then
    .error (.http 400 "File name parameter is required")
  else
    let files := listdirFS fs
    let matching_files :=
      files.filter (fun f => containsList (lowerChars f) (lowerChars file_name))
    if matching_files = [] then .error (.http 404 "No matching files found.")
    else .ok matching_files

/-- Model of search_file in src/main_multithread.py: same as the async
variant but with no empty-query check. -/
def search_file_mt (fs : FS) (file_name : String) : Res (List String) :=
  let files := listdirFS fs
  let matching_files :=
    files.filter (fun f => containsList (lowerChars f) (lowerChars file_name))
  if matching_files = [] then .error (.http 404 "No matching files found.")
  else .ok matching_files

/-- Modelled from the spec: neither source file under src/ implements a
resume endpoint; spec section 4.3 (Resume Calculator) defines it: given a
destination name, read the current on-disk size and return
floor(size / CHUNK_SIZE); signal not-found when the file does not exist;
purely read-only, hence the store is not part of the result. -/
def resume_point (fs : FS) (file_name : String) : Res Nat :=
  match lookupFS fs (pathJoin UPLOAD_FOLDER file_name) with
  | none => .error (.http 404 "File not found")
  | some content => .ok (content.length / CHUNK_SIZE)

/-- An inbound POST request: method, optional Content-Length header value,
and the form fields the upload handlers consume. -/
structure PostReq where
  method : String
  contentLengthHeader : Option String
  filename : String
  payload : Bytes
  part_number : Int
  total_parts : Int

/-- The async request pipeline: middleware first, the handler only when
the middleware lets the request through. -/
def process_upload_async (fs : FS) (r : PostReq) : FS × Res UploadResp :=
  match validate_content_length r.method r.contentLengthHeader with
  | .reject st d => (fs, .error (.http st d))
  | .proceed => upload_part_async fs r.filename r.payload r.part_number r.total_parts

/-- The multithread request pipeline: middleware first, then the handler. -/
def process_upload_mt (fs : FS) (r : PostReq) : FS × Res UploadResp :=
  match validate_content_length r.method r.contentLengthHeader with
  | .reject st d => (fs, .error (.http st d))
  | .proceed => upload_part_mt fs r.filename r.payload r.part_number r.total_parts

/-- Run a sequence of upload_part_async calls for consecutive part numbers
starting at pn, threading the store and collecting each call's result. -/
def uploadRun : FS → String → Int → Int → List Bytes → FS × List (Res UploadResp)
  | fs, _, _, _, [] => (fs, [])
  | fs, name, tp, pn, p :: ps =>
      let step := upload_part_async fs name p pn tp
      let rest := uploadRun step.1 name tp (pn + 1) ps
      (rest.1, step.2 :: rest.2)

/-- Split a character list on slashes. -/
def splitSlash : List Char → List (List Char)
  | [] => [[]]
  | c :: t =>
      let r := splitSlash t
      if c = '/' then [] :: r
      else
        match r with
        | h :: t' => (c :: h) :: t'
        | [] => [[c]]

/-- Resolve the path components a filesystem would resolve: empty and dot
components vanish, a dot-dot component removes the component before it. -/
def normStack (acc : List (List Char)) : List (List Char) → List (List Char)
  | [] => acc.reverse
  | c :: rest =>
      if c = [] ∨ c = ['.'] then normStack acc rest
      else if c = ['.', '.'] then normStack acc.tail rest
      else normStack (c :: acc) rest

/-- The resolved component list of a path string. -/
def normPath (p : String) : List String :=
  (normStack [] (splitSlash p.data)).map String.mk

/-- Concrete store holding one small file, used by witnesses. -/
def fsSingle : FS := [("uploads/a.txt", [1, 2, 3])]

/-- Concrete store holding a file that already has MAX_FILE_SIZE bytes. -/
def fsBig : FS := [("uploads/big.bin", List.replicate MAX_FILE_SIZE 0)]

/-- Concrete store holding one file with a mixed-case name. -/
def fsReport : FS := [("uploads/Q1_Report.pdf", [1])]

/-! ### Helper lemmas: store operations -/

theorem lookupFS_appendAssoc_self (fs : FS) (key : String) (c : Bytes) :
    lookupFS (appendAssoc fs key c) key = some ((lookupFS fs key).getD [] ++ c) := by
  induction fs with
  | nil => simp [appendAssoc, lookupFS]
  | cons kv t ih =>
      obtain ⟨k, v⟩ := kv
      by_cases h : k = key
      · simp [appendAssoc, lookupFS, h]
      · simp [appendAssoc, lookupFS, h, ih]

theorem writeLoopFuel_congr :
    ∀ (n m : Nat) (payload : Bytes) (fs : FS) (loc : String),
      payload.length ≤ n → payload.length ≤ m →
      writeLoopFuel n fs loc payload = writeLoopFuel m fs loc payload := by
  intro n
  induction n with
  | zero =>
      intro m payload fs loc hn _
      have : payload = [] := List.eq_nil_of_length_eq_zero (by omega)
      subst this
      cases m <;> rfl
  | succ n ih =>
      intro m payload fs loc hn hm
      cases payload with
      | nil => cases m <;> rfl
      | cons p ps =>
          cases m with
          | zero => simp at hm
          | succ m =>
              show writeLoopFuel n _ loc _ = writeLoopFuel m _ loc _
              apply ih
              · rw [List.length_drop]
                simp only [List.length_cons] at hn ⊢
                have hc : 0 < CHUNK_SIZE := by decide
                omega
              · rw [List.length_drop]
                simp only [List.length_cons] at hm ⊢
                have hc : 0 < CHUNK_SIZE := by decide
                omega

theorem writeLoop_nil (fs : FS) (loc : String) : writeLoop fs loc [] = fs := rfl

theorem writeLoop_cons (fs : FS) (loc : String) (p : Nat) (ps : Bytes) :
    writeLoop fs loc (p :: ps) =
      writeLoop (appendAssoc fs loc ((p :: ps).take CHUNK_SIZE)) loc
        ((p :: ps).drop CHUNK_SIZE) := by
  show writeLoopFuel (p :: ps).length fs loc (p :: ps) = _
  have hstep : writeLoopFuel (p :: ps).length fs loc (p :: ps) =
      writeLoopFuel ps.length (appendAssoc fs loc ((p :: ps).take CHUNK_SIZE)) loc
        ((p :: ps).drop CHUNK_SIZE) := rfl
  rw [hstep]
  apply writeLoopFuel_congr
  · rw [List.length_drop]
    simp only [List.length_cons]
    have hc : 0 < CHUNK_SIZE := by decide
    omega
  · exact le_rfl

theorem writeLoop_lookup_aux (loc : String) :
    ∀ (n : Nat) (payload : Bytes) (fs : FS), payload.length ≤ n → payload ≠ [] →
      lookupFS (writeLoop fs loc payload) loc =
        some ((lookupFS fs loc).getD [] ++ payload) := by
  intro n
  induction n with
  | zero =>
      intro payload fs hlen hne
      cases payload with
      | nil => exact absurd rfl hne
      | cons p ps => simp at hlen
  | succ n ih =>
      intro payload fs hlen hne
      cases payload with
      | nil => exact absurd rfl hne
      | cons p ps =>
          rw [writeLoop_cons]
          have hc : 0 < CHUNK_SIZE := by decide
          by_cases hq : (p :: ps).drop CHUNK_SIZE = []
          · have hle : (p :: ps).length ≤ CHUNK_SIZE := by
              have hd := List.length_drop CHUNK_SIZE (p :: ps)
              rw [hq] at hd
              simp only [List.length_nil] at hd
              omega
            rw [hq, writeLoop_nil, lookupFS_appendAssoc_self,
              List.take_of_length_le hle]
          · rw [ih _ _ _ hq]
            · rw [lookupFS_appendAssoc_self]
              simp [List.take_append_drop]
            · rw [List.length_drop]
              simp only [List.length_cons] at hlen ⊢
              omega

theorem writeLoop_lookup (fs : FS) (loc : String) (payload : Bytes)
    (hne : payload ≠ []) :
    lookupFS (writeLoop fs loc payload) loc =
      some ((lookupFS fs loc).getD [] ++ payload) :=
  writeLoop_lookup_aux loc payload.length payload fs le_rfl hne

/-! ### Helper lemmas: the async upload handler's branches -/

theorem upload_part_async_accepts (fs : FS) (name : String) (payload : Bytes)
    (pn tp : Int)
    (h1 : tp ≤ (MAX_PARTS : Int))
    (h2 : payload.length ≤ CHUNK_SIZE)
    (h3 : pn < tp → payload.length = CHUNK_SIZE)
    (h4 : ((lookupFS fs (pathJoin UPLOAD_FOLDER name)).getD []).length + payload.length
            ≤ MAX_FILE_SIZE) :
    upload_part_async fs name payload pn tp =
      (appendAssoc fs (pathJoin UPLOAD_FOLDER name) payload,
       .ok ⟨if pn = tp then .complete else .partUploaded pn tp, name⟩) := by
  have htake : payload.take (CHUNK_SIZE + 1) = payload :=
    List.take_of_length_le (by omega)
  unfold upload_part_async
  rw [if_neg (not_lt.mpr h1)]
  simp only [htake]
  rw [if_neg (not_lt.mpr h2)]
  rw [if_neg]
  · rw [if_neg (not_lt.mpr h4)]
    by_cases h : pn = tp <;> simp [h]
  · rintro ⟨hshort, hlt⟩
    exact absurd (h3 hlt) (by omega)

theorem upload_part_async_cases (fs : FS) (name : String) (payload : Bytes)
    (pn tp : Int) :
    (∃ e, upload_part_async fs name payload pn tp = (fs, .error e)) ∨
    (∃ r, upload_part_async fs name payload pn tp =
      (appendAssoc fs (pathJoin UPLOAD_FOLDER name) (payload.take (CHUNK_SIZE + 1)),
       .ok r)) := by
  unfold upload_part_async
  dsimp only
  repeat' split
  all_goals first
    | exact Or.inl ⟨_, rfl⟩
    | exact Or.inr ⟨_, rfl⟩

theorem upload_part_async_error_state (fs : FS) (name : String) (payload : Bytes)
    (pn tp : Int) (e : HErr) :
    (upload_part_async fs name payload pn tp).2 = .error e →
    (upload_part_async fs name payload pn tp).1 = fs := by
  intro h
  rcases upload_part_async_cases fs name payload pn tp with ⟨e', he⟩ | ⟨r, hr⟩
  · rw [he]
  · rw [hr] at h ⊢
    simp at h

theorem upload_part_async_oversize (fs : FS) (name : String) (payload : Bytes)
    (pn tp : Int) (hover : CHUNK_SIZE < payload.length) :
    upload_part_async fs name payload pn tp =
      (fs, .error (if (MAX_PARTS : Int) < tp then .http 400 "Total parts cannot exceed 100."
                   else .http 400 "Each part must not exceed 1 MB.")) := by
  have hlen : CHUNK_SIZE < (payload.take (CHUNK_SIZE + 1)).length := by
    rw [List.length_take]
    omega
  unfold upload_part_async
  by_cases h : (MAX_PARTS : Int) < tp
  · rw [if_pos h, if_pos h]
  · rw [if_neg h, if_neg h]
    simp only [if_pos hlen]

theorem upload_part_async_short_nonfinal (fs : FS) (name : String) (payload : Bytes)
    (pn tp : Int) (h1 : tp ≤ (MAX_PARTS : Int))
    (hshort : payload.length < CHUNK_SIZE) (hnonfinal : pn < tp) :
    upload_part_async fs name payload pn tp =
      (fs, .error (.http 400 "Each part except the last must be exactly 1 MB.")) := by
  have htake : payload.take (CHUNK_SIZE + 1) = payload :=
    List.take_of_length_le (by omega)
  unfold upload_part_async
  rw [if_neg (not_lt.mpr h1)]
  simp only [htake]
  rw [if_neg (by omega), if_pos ⟨hshort, hnonfinal⟩]

theorem upload_part_async_quota (fs : FS) (name : String) (payload : Bytes)
    (pn tp : Int) (h1 : tp ≤ (MAX_PARTS : Int))
    (h2 : payload.length ≤ CHUNK_SIZE)
    (h3 : pn < tp → payload.length = CHUNK_SIZE)
    (h4 : MAX_FILE_SIZE <
            ((lookupFS fs (pathJoin UPLOAD_FOLDER name)).getD []).length + payload.length) :
    upload_part_async fs name payload pn tp =
      (fs, .error (.http 413 "Total file size exceeds the allowed limit of 100 MB.")) := by
  have htake : payload.take (CHUNK_SIZE + 1) = payload :=
    List.take_of_length_le (by omega)
  unfold upload_part_async
  rw [if_neg (not_lt.mpr h1)]
  simp only [htake]
  rw [if_neg (not_lt.mpr h2)]
  rw [if_neg]
  · rw [if_pos h4]
  · rintro ⟨hshort, hlt⟩
    exact absurd (h3 hlt) (by omega)

/-! ### Helper lemmas: download chunking -/

theorem pyRange_zero (step : Nat) (hs : 0 < step) : pyRange 0 step = [] := by
  unfold pyRange
  rw [Nat.zero_add, Nat.div_eq_of_lt (by omega)]
  rfl

theorem numChunks_step (n c : Nat) (hc : 0 < c) (hn : 0 < n) :
    (n + c - 1) / c = (n - c + c - 1) / c + 1 := by
  have h1 : n + c - 1 = (n - 1) + c := by omega
  rw [h1, Nat.add_div_right _ hc]
  by_cases h : n ≤ c
  · have h2 : n - c = 0 := by omega
    rw [h2, Nat.zero_add, Nat.div_eq_of_lt (by omega), Nat.div_eq_of_lt (by omega)]
  · have h3 : n - c + c - 1 = (n - 1 - c) + c := by omega
    rw [h3, Nat.add_div_right _ hc]
    have h4 : n - 1 = (n - 1 - c) + c := by omega
    rw [h4, Nat.add_div_right _ hc, Nat.add_sub_cancel]

theorem chunksBy_nil (c : Nat) (hc : 0 < c) : chunksBy c [] = [] := by
  unfold chunksBy
  rw [List.length_nil, pyRange_zero c hc]
  rfl

theorem chunksBy_cons (c : Nat) (hc : 0 < c) (l : Bytes) (hl : l ≠ []) :
    chunksBy c l = l.take c :: chunksBy c (l.drop c) := by
  have hn : 0 < l.length := List.length_pos.mpr hl
  unfold chunksBy pyRange
  rw [List.length_drop, numChunks_step l.length c hc hn, List.range_succ_eq_map]
  simp only [List.map_cons, List.map_map]
  congr 1
  · simp
  · apply List.map_congr_left
    intro i _
    simp only [Function.comp]
    rw [List.drop_drop]
    congr 2
    simp [Nat.succ_mul]
    omega

theorem chunksBy_flatten_aux (c : Nat) (hc : 0 < c) :
    ∀ (n : Nat) (l : Bytes), l.length ≤ n → (chunksBy c l).flatten = l := by
  intro n
  induction n with
  | zero =>
      intro l hl
      have : l = [] := List.eq_nil_of_length_eq_zero (by omega)
      rw [this, chunksBy_nil c hc]
      rfl
  | succ n ih =>
      intro l hl
      by_cases hnil : l = []
      · rw [hnil, chunksBy_nil c hc]; rfl
      · rw [chunksBy_cons c hc l hnil]
        simp only [List.flatten_cons]
        rw [ih (l.drop c) (by rw [List.length_drop]; omega)]
        exact List.take_append_drop c l

theorem chunksBy_flatten (c : Nat) (hc : 0 < c) (l : Bytes) :
    (chunksBy c l).flatten = l :=
  chunksBy_flatten_aux c hc l.length l le_rfl

theorem chunksBy_sum (c : Nat) (hc : 0 < c) (l : Bytes) :
    ((chunksBy c l).map List.length).sum = l.length := by
  rw [← List.length_flatten, chunksBy_flatten c hc]

theorem chunksBy_mem_le (c : Nat) (hc : 0 < c) :
    ∀ (n : Nat) (l : Bytes), l.length ≤ n → ∀ ch ∈ chunksBy c l, ch.length ≤ c := by
  intro n
  induction n with
  | zero =>
      intro l hl ch hch
      have : l = [] := List.eq_nil_of_length_eq_zero (by omega)
      rw [this, chunksBy_nil c hc] at hch
      simp at hch
  | succ n ih =>
      intro l hl ch hch
      by_cases hnil : l = []
      · rw [hnil, chunksBy_nil c hc] at hch
        simp at hch
      · rw [chunksBy_cons c hc l hnil] at hch
        rcases List.mem_cons.mp hch with h | h
        · rw [h, List.length_take]
          omega
        · exact ih (l.drop c) (by rw [List.length_drop]; omega) ch h

theorem chunksBy_nonfinal (c : Nat) (hc : 0 < c) :
    ∀ (n : Nat) (l : Bytes), l.length ≤ n →
      ∀ i, i + 1 < (chunksBy c l).length → ((chunksBy c l).getD i []).length = c := by
  intro n
  induction n with
  | zero =>
      intro l hl i hi
      have : l = [] := List.eq_nil_of_length_eq_zero (by omega)
      rw [this, chunksBy_nil c hc] at hi
      simp at hi
  | succ n ih =>
      intro l hl i hi
      by_cases hnil : l = []
      · rw [hnil, chunksBy_nil c hc] at hi
        simp at hi
      · rw [chunksBy_cons c hc l hnil] at hi ⊢
        cases i with
        | zero =>
            simp only [List.length_cons] at hi
            have hdrop : chunksBy c (l.drop c) ≠ [] := by
              intro hempty
              rw [hempty] at hi
              simp at hi
            have hlc : c < l.length := by
              by_contra hle
              have : l.drop c = [] := List.drop_eq_nil_of_le (by omega)
              rw [this, chunksBy_nil c hc] at hdrop
              exact hdrop rfl
            simp only [List.getD_cons_zero, List.length_take]
            omega
        | succ j =>
            simp only [List.getD_cons_succ]
            exact ih (l.drop c) (by rw [List.length_drop]; omega) j
              (by simp only [List.length_cons] at hi; omega)

/-! ### Helper lemmas: substring search -/

theorem isPrefixOf_exists : ∀ (p l : List Char), p.isPrefixOf l = true ↔ ∃ t, l = p ++ t := by
  intro p
  induction p with
  | nil =>
      intro l
      simp [List.isPrefixOf]
  | cons a as ih =>
      intro l
      cases l with
      | nil => simp [List.isPrefixOf]
      | cons b bs =>
          simp only [List.isPrefixOf, Bool.and_eq_true, beq_iff_eq, List.cons_append,
            List.cons.injEq, ih bs]
          constructor
          · rintro ⟨hab, t, ht⟩
            exact ⟨t, hab.symm, ht⟩
          · rintro ⟨t, hba, ht⟩
            exact ⟨hba.symm, t, ht⟩

theorem containsList_iff :
    ∀ (hay needle : List Char), containsList hay needle = true ↔
      ∃ s t, hay = s ++ needle ++ t := by
  intro hay
  induction hay with
  | nil =>
      intro needle
      simp only [containsList, List.isEmpty_iff]
      constructor
      · rintro rfl
        exact ⟨[], [], rfl⟩
      · rintro ⟨s, t, h⟩
        rcases List.append_eq_nil.mp h.symm with ⟨h1, h2⟩
        rcases List.append_eq_nil.mp h1 with ⟨_, h4⟩
        exact h4
  | cons a t ih =>
      intro needle
      simp only [containsList, Bool.or_eq_true, isPrefixOf_exists, ih]
      constructor
      · rintro (⟨u, hu⟩ | ⟨s, u, hsu⟩)
        · exact ⟨[], u, by simpa using hu⟩
        · exact ⟨a :: s, u, by simp [hsu]⟩
      · rintro ⟨s, u, hsu⟩
        cases s with
        | nil =>
            left
            exact ⟨u, by simpa using hsu⟩
        | cons b s' =>
            right
            refine ⟨s', u, ?_⟩
            simp only [List.cons_append] at hsu
            injection hsu with h1 h2

/-! ### Helper lemmas: sequences of upload calls -/

theorem uploadRun_ok (name : String) (tp : Int) :
    ∀ (parts : List Bytes) (fs : FS) (pn : Int),
      tp ≤ (MAX_PARTS : Int) →
      pn + (parts.length : Int) = tp + 1 →
      (∀ p ∈ parts, p.length ≤ CHUNK_SIZE) →
      (∀ i, i < parts.length → pn + (i : Int) < tp → (parts.getD i []).length = CHUNK_SIZE) →
      ((lookupFS fs (pathJoin UPLOAD_FOLDER name)).getD []).length
          + (parts.map List.length).sum ≤ MAX_FILE_SIZE →
      (uploadRun fs name tp pn parts).2.length = parts.length ∧
      (∀ i, i < parts.length →
        (uploadRun fs name tp pn parts).2.getD i (.error (.http 0 "")) =
          .ok ⟨if pn + (i : Int) = tp then .complete
               else .partUploaded (pn + (i : Int)) tp, name⟩) ∧
      (parts ≠ [] →
        lookupFS (uploadRun fs name tp pn parts).1 (pathJoin UPLOAD_FOLDER name) =
          some ((lookupFS fs (pathJoin UPLOAD_FOLDER name)).getD [] ++ parts.flatten)) ∧
      (parts = [] → (uploadRun fs name tp pn parts).1 = fs) := by
  intro parts
  induction parts with
  | nil =>
      intro fs pn _ _ _ _ _
      refine ⟨rfl, ?_, ?_, fun _ => rfl⟩
      · intro i hi
        simp at hi
      · intro h
        exact absurd rfl h
  | cons p ps ih =>
      intro fs pn hmax hcount hlen hfull hquota
      have hple : p.length ≤ CHUNK_SIZE := hlen p (List.mem_cons_self p ps)
      have hfirstfull : pn < tp → p.length = CHUNK_SIZE := by
        intro hlt
        have h0 := hfull 0 (by simp) (by simpa using hlt)
        simpa using h0
      have hq1 : ((lookupFS fs (pathJoin UPLOAD_FOLDER name)).getD []).length + p.length
          ≤ MAX_FILE_SIZE := by
        simp only [List.map_cons, List.sum_cons] at hquota
        omega
      have hstep := upload_part_async_accepts fs name p pn tp hmax hple hfirstfull hq1
      have hruneq : uploadRun fs name tp pn (p :: ps) =
          ((uploadRun (upload_part_async fs name p pn tp).1 name tp (pn + 1) ps).1,
           (upload_part_async fs name p pn tp).2 ::
             (uploadRun (upload_part_async fs name p pn tp).1 name tp (pn + 1) ps).2) := by
        rw [uploadRun]
      have hfs1 : (upload_part_async fs name p pn tp).1 =
          appendAssoc fs (pathJoin UPLOAD_FOLDER name) p := by rw [hstep]
      have hresp : (upload_part_async fs name p pn tp).2 =
          .ok ⟨if pn = tp then .complete else .partUploaded pn tp, name⟩ := by rw [hstep]
      have hlook1 : lookupFS (appendAssoc fs (pathJoin UPLOAD_FOLDER name) p)
          (pathJoin UPLOAD_FOLDER name) =
          some ((lookupFS fs (pathJoin UPLOAD_FOLDER name)).getD [] ++ p) :=
        lookupFS_appendAssoc_self fs (pathJoin UPLOAD_FOLDER name) p
      have hcount' : (pn + 1) + (ps.length : Int) = tp + 1 := by
        simp only [List.length_cons] at hcount
        push_cast at hcount ⊢
        omega
      have hlen' : ∀ q ∈ ps, q.length ≤ CHUNK_SIZE := by
        intro q hq
        exact hlen q (List.mem_cons_of_mem p hq)
      have hfull' : ∀ i, i < ps.length → (pn + 1) + (i : Int) < tp →
          (ps.getD i []).length = CHUNK_SIZE := by
        intro i hi hlt
        have h1 := hfull (i + 1) (by simp; omega) (by push_cast; omega)
        simpa using h1
      have hquota' : ((lookupFS (appendAssoc fs (pathJoin UPLOAD_FOLDER name) p)
            (pathJoin UPLOAD_FOLDER name)).getD []).length
          + (ps.map List.length).sum ≤ MAX_FILE_SIZE := by
        rw [hlook1]
        simp only [Option.getD_some, List.length_append, List.map_cons,
          List.sum_cons] at hquota ⊢
        omega
      obtain ⟨ihlen, ihresp, ihlook, ihnil⟩ :=
        ih (appendAssoc fs (pathJoin UPLOAD_FOLDER name) p) (pn + 1)
          hmax hcount' hlen' hfull' hquota'
      rw [hruneq]
      refine ⟨?_, ?_, ?_, ?_⟩
      · simp only [List.length_cons]
        rw [hfs1, ihlen]
      · intro i hi
        cases i with
        | zero =>
            simp only [List.getD_cons_zero, hresp]
            norm_num
        | succ j =>
            simp only [List.getD_cons_succ, hfs1]
            have hj : j < ps.length := by
              simp only [List.length_cons] at hi
              omega
            rw [ihresp j hj]
            have hcast : (pn + 1) + (j : Int) = pn + ((j + 1 : Nat) : Int) := by
              push_cast
              ring
            rw [hcast]
      · intro _
        by_cases hps : ps = []
        · subst hps
          rw [hfs1, ihnil rfl, hlook1]
          simp
        · rw [hfs1, ihlook hps, hlook1]
          simp only [Option.getD_some, List.flatten_cons, List.append_assoc]
      · intro h
        exact absurd h (by simp)

/-! ### Helper lemmas: middleware and pipeline -/

theorem pyInt_empty : pyInt ("" : String).data = none := by decide

theorem pyInt_some_ne_empty (s : String) (n : Int) (h : pyInt s.data = some n) :
    s ≠ "" := by
  rintro rfl
  rw [pyInt_empty] at h
  cases h

theorem mw_reject_cap (s : String) (n : Int) (hs : s ≠ "")
    (hparse : pyInt s.data = some n) (hgt : (CHUNK_SIZE : Int) < n) :
    validate_content_length "POST" (some s) =
      .reject 400 "Each part must not exceed 1 MB based on Content-Length." := by
  simp [validate_content_length, hs, hparse, hgt]

theorem mw_reject_invalid (s : String) (hs : s ≠ "")
    (hparse : pyInt s.data = none) :
    validate_content_length "POST" (some s) =
      .reject 400 "Invalid Content-Length header." := by
  simp [validate_content_length, hs, hparse]

theorem process_async_reject (fs : FS) (r : PostReq) (st : Nat) (d : String)
    (h : validate_content_length r.method r.contentLengthHeader = .reject st d) :
    process_upload_async fs r = (fs, .error (.http st d)) := by
  simp [process_upload_async, h]

theorem process_mt_reject (fs : FS) (r : PostReq) (st : Nat) (d : String)
    (h : validate_content_length r.method r.contentLengthHeader = .reject st d) :
    process_upload_mt fs r = (fs, .error (.http st d)) := by
  simp [process_upload_mt, h]

theorem containsList_nil_true (l : List Char) : containsList l [] = true := by
  cases l <;> simp [containsList, List.isPrefixOf]

/-! ### Claim theorems -/

/-- C1: the claim says a destination name holding a path separator or a
parent-directory component is rejected with an invalid-argument error
before being used as a path.  Neither source file sanitizes the name: this
evaluation shows the async upload handler accepting the name
"../escape.txt", storing the byte under uploads/../escape.txt — a path
that resolves to escape.txt outside the upload directory — and the
download handler serving that same traversal path instead of rejecting
it.  The multithread variant runs the identical os.path.join on the raw
name. -/
theorem C1_traversal_eval :
    (upload_part_async [] "../escape.txt" [7] 1 1).2 =
      .ok ⟨.complete, "../escape.txt"⟩ ∧
    lookupFS (upload_part_async [] "../escape.txt" [7] 1 1).1
      "uploads/../escape.txt" = some [7] ∧
    normPath (pathJoin UPLOAD_FOLDER "../escape.txt") = ["escape.txt"] ∧
    download_file (upload_part_async [] "../escape.txt" [7] 1 1).1 "../escape.txt" =
      .ok ([[7]], 1, "../escape.txt") := by
  refine ⟨?_, ?_, ?_, ?_⟩ <;> decide

/-- C2: ResumePoint (modelled from the spec, no resume endpoint exists in
src/) returns floor(size / CHUNK_SIZE) — chunk index k for a file of size
k * CHUNK_SIZE + r with r < CHUNK_SIZE — and a not-found error when the
file does not exist; it is read-only by construction. -/
theorem C2_resume_point (fs : FS) (name : String) :
    (∀ content k r, lookupFS fs (pathJoin UPLOAD_FOLDER name) = some content →
        content.length = k * CHUNK_SIZE + r → r < CHUNK_SIZE →
        resume_point fs name = .ok k) ∧
    (lookupFS fs (pathJoin UPLOAD_FOLDER name) = none →
        resume_point fs name = .error (.http 404 "File not found")) := by
  constructor
  · intro content k r hlook hdecomp hr
    unfold resume_point
    rw [hlook]
    simp only [Res.ok.injEq]
    rw [hdecomp, Nat.mul_comm, Nat.mul_add_div (by decide), Nat.div_eq_of_lt hr,
      Nat.add_zero]
  · intro h
    unfold resume_point
    rw [h]

theorem C2_resume_point_witness :
    lookupFS fsSingle (pathJoin UPLOAD_FOLDER "a.txt") = some [1, 2, 3] ∧
    ([1, 2, 3] : Bytes).length = 0 * CHUNK_SIZE + 3 ∧ 3 < CHUNK_SIZE ∧
    resume_point fsSingle "a.txt" = .ok 0 :=
  ⟨by decide, by decide, by decide,
   (C2_resume_point fsSingle "a.txt").1 [1, 2, 3] 0 3 (by decide) (by decide)
     (by decide)⟩

/-- C8 counterexample: the claim says an empty query fails with an
invalid-argument error; the multithread search handler has no empty-query
check, so the empty query matches every stored name and is answered with
the full listing. -/
theorem C8_counterexample :
    search_file_mt fsSingle "" = .ok ["a.txt"] := by decide

/-- C8 amended: the async search handler behaves as claimed — empty query
rejected with 400, otherwise exactly the names containing the query as a
case-insensitive substring, 404 when none match; the multithread handler
agrees on non-empty queries but performs no empty-query check, answering
the empty query with every stored name. -/
theorem C8_search (fs : FS) (q : String) :
    (q = "" → search_file_async fs q =
        .error (.http 400 "File name parameter is required")) ∧
    (q ≠ "" → ∀ result, search_file_async fs q = .ok result →
        ∀ n, n ∈ result ↔ n ∈ listdirFS fs ∧
          ∃ s t, lowerChars n = s ++ lowerChars q ++ t) ∧
    (q ≠ "" → (∀ n ∈ listdirFS fs, ¬ ∃ s t, lowerChars n = s ++ lowerChars q ++ t) →
        search_file_async fs q = .error (.http 404 "No matching files found.")) ∧
    (q ≠ "" → search_file_mt fs q = search_file_async fs q) ∧
    (listdirFS fs ≠ [] → search_file_mt fs "" = .ok (listdirFS fs)) := by
  refine ⟨?_, ?_, ?_, ?_, ?_⟩
  · intro h
    simp [search_file_async, h]
  · intro hq result hres n
    simp only [search_file_async, if_neg hq] at hres
    split at hres
    · cases hres
    · cases hres
      simp only [List.mem_filter]
      constructor
      · rintro ⟨hmem, hcl⟩
        exact ⟨hmem, (containsList_iff _ _).mp hcl⟩
      · rintro ⟨hmem, hex⟩
        exact ⟨hmem, (containsList_iff _ _).mpr hex⟩
  · intro hq hnone
    have hfil : (listdirFS fs).filter
        (fun f => containsList (lowerChars f) (lowerChars q)) = [] := by
      rw [List.filter_eq_nil_iff]
      intro a ha hcl
      exact hnone a ha ((containsList_iff _ _).mp hcl)
    simp [search_file_async, search_file_mt, hq, hfil]
  · intro hq
    simp [search_file_async, search_file_mt, hq]
  · intro hne
    have hall : (listdirFS fs).filter
        (fun f => containsList (lowerChars f) (lowerChars "")) = listdirFS fs := by
      rw [List.filter_eq_self]
      intro a _
      exact containsList_nil_true (lowerChars a)
    simp [search_file_mt, hall, hne]

theorem C8_search_witness :
    ("report" : String) ≠ "" ∧
    search_file_async fsReport "report" = .ok ["Q1_Report.pdf"] ∧
    (("Q1_Report.pdf" : String) ∈ (["Q1_Report.pdf"] : List String) ↔
      ("Q1_Report.pdf" : String) ∈ listdirFS fsReport ∧
      ∃ s t, lowerChars "Q1_Report.pdf" = s ++ lowerChars "report" ++ t) :=
  ⟨by decide, by decide,
   (C8_search fsReport "report").2.1 (by decide) ["Q1_Report.pdf"] (by decide)
     "Q1_Report.pdf"⟩

/-- C9 counterexample: the claim says ListFiles answers an empty store
with an empty list; both source files instead answer with a message
object of a different shape. -/
theorem C9_counterexample :
    list_files ([] : FS) = ListResp.message "No files found." ∧
    list_files ([] : FS) ≠ ListResp.files [] := by
  constructor <;> decide

/-- C9 amended: ListFiles returns exactly the stored names when at least
one file exists, and a "No files found." message object — a 200 response,
but not an empty list — when none do. -/
theorem C9_list_files (fs : FS) :
    (listdirFS fs = [] → list_files fs = ListResp.message "No files found.") ∧
    (listdirFS fs ≠ [] → list_files fs = ListResp.files (listdirFS fs)) := by
  constructor <;> intro h <;> simp [list_files, h]

theorem C9_list_files_witness :
    listdirFS fsSingle ≠ [] ∧
    list_files fsSingle = ListResp.files (listdirFS fsSingle) :=
  ⟨by decide, (C9_list_files fsSingle).2 (by decide)⟩

/-- C10 counterexample: the claim says every POST whose Content-Length
header does not parse as an integer is rejected with 400; both middleware
implementations first test the header value for truthiness, so a header
present with the empty-string value — which int() cannot parse — is
silently skipped and the request reaches the upload handler. -/
theorem C10_counterexample :
    pyInt ("" : String).data = none ∧
    validate_content_length "POST" (some "") = MwResult.proceed ∧
    (process_upload_async [] ⟨"POST", some "", "a.txt", [7], 1, 1⟩).2 =
      .ok ⟨.complete, "a.txt"⟩ := by
  refine ⟨?_, ?_, ?_⟩ <;> decide

/-- C10 amended: for every POST carrying a Content-Length header with a
non-empty value, a value parsing as an integer above CHUNK_SIZE is
rejected with 400 before the upload handler runs (the store is returned
unchanged, whatever the payload), and a non-empty value that does not
parse as an integer is rejected with the 400 invalid-header response; an
empty header value is skipped.  The header counts the whole request body,
so the cap binds the body including multipart overhead, independent of
the part payload, which is universally quantified here. -/
theorem C10_content_length (fs : FS) (r : PostReq) (s : String) :
    r.method = "POST" → r.contentLengthHeader = some s → s ≠ "" →
    ((∀ n : Int, pyInt s.data = some n → (CHUNK_SIZE : Int) < n →
        process_upload_async fs r =
          (fs, .error (.http 400 "Each part must not exceed 1 MB based on Content-Length.")) ∧
        process_upload_mt fs r =
          (fs, .error (.http 400 "Each part must not exceed 1 MB based on Content-Length."))) ∧
     (pyInt s.data = none →
        process_upload_async fs r =
          (fs, .error (.http 400 "Invalid Content-Length header.")) ∧
        process_upload_mt fs r =
          (fs, .error (.http 400 "Invalid Content-Length header.")))) := by
  intro hm hh hs
  constructor
  · intro n hparse hgt
    have hmw : validate_content_length r.method r.contentLengthHeader =
        .reject 400 "Each part must not exceed 1 MB based on Content-Length." := by
      rw [hm, hh]
      exact mw_reject_cap s n hs hparse hgt
    exact ⟨process_async_reject fs r _ _ hmw, process_mt_reject fs r _ _ hmw⟩
  · intro hparse
    have hmw : validate_content_length r.method r.contentLengthHeader =
        .reject 400 "Invalid Content-Length header." := by
      rw [hm, hh]
      exact mw_reject_invalid s hs hparse
    exact ⟨process_async_reject fs r _ _ hmw, process_mt_reject fs r _ _ hmw⟩

theorem C10_content_length_witness :
    ("1048577" : String) ≠ "" ∧
    pyInt ("1048577" : String).data = some 1048577 ∧
    (CHUNK_SIZE : Int) < 1048577 ∧
    process_upload_async [] ⟨"POST", some "1048577", "a.txt", [7], 1, 1⟩ =
      ([], .error (.http 400 "Each part must not exceed 1 MB based on Content-Length.")) ∧
    process_upload_mt [] ⟨"POST", some "1048577", "a.txt", [7], 1, 1⟩ =
      ([], .error (.http 400 "Each part must not exceed 1 MB based on Content-Length.")) := by
  have h := (C10_content_length [] ⟨"POST", some "1048577", "a.txt", [7], 1, 1⟩
      "1048577" rfl rfl (by decide)).1 1048577 (by decide) (by decide)
  exact ⟨by decide, by decide, by decide, h.1, h.2⟩

/-- C3 counterexample: the claim says a payload longer than CHUNK_SIZE is
always rejected with nothing written; the multithread upload handler has
no size check, so a payload of CHUNK_SIZE + 1 bytes is appended in full
and the call reports success. -/
theorem C3_counterexample :
    CHUNK_SIZE < (List.replicate (CHUNK_SIZE + 1) (0 : Nat)).length ∧
    (upload_part_mt [] "big" (List.replicate (CHUNK_SIZE + 1) 0) 1 1).2 =
      .ok ⟨.complete, "big"⟩ ∧
    lookupFS (upload_part_mt [] "big" (List.replicate (CHUNK_SIZE + 1) 0) 1 1).1
      (pathJoin UPLOAD_FOLDER "big") = some (List.replicate (CHUNK_SIZE + 1) 0) := by
  refine ⟨by simp, by simp [upload_part_mt], ?_⟩
  have hne : List.replicate (CHUNK_SIZE + 1) (0 : Nat) ≠ [] := by
    intro h
    have hl := congrArg List.length h
    simp at hl
  have h := writeLoop_lookup [] (pathJoin UPLOAD_FOLDER "big")
    (List.replicate (CHUNK_SIZE + 1) 0) hne
  have hsel : (upload_part_mt [] "big" (List.replicate (CHUNK_SIZE + 1) 0) 1 1).1 =
      writeLoop [] (pathJoin UPLOAD_FOLDER "big") (List.replicate (CHUNK_SIZE + 1) 0) := by
    simp [upload_part_mt]
  rw [hsel, h]
  simp [lookupFS]

/-- C3 amended: the async upload handler rejects every payload longer
than CHUNK_SIZE with the part-too-large error and no write (when
total_parts > MAX_PARTS the count-limit error takes precedence, still
with no write); the multithread handler performs no size check of its
own — an oversized request is stopped only by the Content-Length
middleware, when the request carries a non-empty integer header above
CHUNK_SIZE. -/
theorem C3_oversize (fs : FS) (name : String) (payload : Bytes) (pn tp : Int) :
    (CHUNK_SIZE < payload.length → tp ≤ (MAX_PARTS : Int) →
      upload_part_async fs name payload pn tp =
        (fs, .error (.http 400 "Each part must not exceed 1 MB."))) ∧
    (CHUNK_SIZE < payload.length →
      (upload_part_async fs name payload pn tp).1 = fs ∧
      ∃ e, (upload_part_async fs name payload pn tp).2 = .error e) ∧
    (∀ (r : PostReq) (s : String) (n : Int), r.method = "POST" →
      r.contentLengthHeader = some s → pyInt s.data = some n →
      (CHUNK_SIZE : Int) < n →
      process_upload_mt fs r =
        (fs, .error (.http 400 "Each part must not exceed 1 MB based on Content-Length."))) := by
  refine ⟨?_, ?_, ?_⟩
  · intro hover htp
    rw [upload_part_async_oversize fs name payload pn tp hover,
      if_neg (not_lt.mpr htp)]
  · intro hover
    rw [upload_part_async_oversize fs name payload pn tp hover]
    exact ⟨rfl, _, rfl⟩
  · intro r s n hm hh hparse hgt
    have hs : s ≠ "" := pyInt_some_ne_empty s n hparse
    have hmw : validate_content_length r.method r.contentLengthHeader =
        .reject 400 "Each part must not exceed 1 MB based on Content-Length." := by
      rw [hm, hh]
      exact mw_reject_cap s n hs hparse hgt
    exact process_mt_reject fs r _ _ hmw

theorem C3_oversize_witness :
    CHUNK_SIZE < (List.replicate (CHUNK_SIZE + 1) (0 : Nat)).length ∧
    (1 : Int) ≤ (MAX_PARTS : Int) ∧
    upload_part_async [] "x" (List.replicate (CHUNK_SIZE + 1) 0) 1 1 =
      ([], .error (.http 400 "Each part must not exceed 1 MB.")) :=
  ⟨by simp, by decide,
   (C3_oversize [] "x" (List.replicate (CHUNK_SIZE + 1) 0) 1 1).1 (by simp)
     (by decide)⟩

/-- C4 counterexample: the claim says a non-final part shorter than
CHUNK_SIZE is rejected with nothing written; the multithread upload
handler has no such check, so part 1 of 2 with a two-byte payload is
appended and the call reports success. -/
theorem C4_counterexample :
    ([1, 2] : Bytes).length < CHUNK_SIZE ∧ (1 : Int) < 2 ∧
    (upload_part_mt [] "short" [1, 2] 1 2).2 = .ok ⟨.partUploaded 1 2, "short"⟩ ∧
    lookupFS (upload_part_mt [] "short" [1, 2] 1 2).1
      (pathJoin UPLOAD_FOLDER "short") = some [1, 2] := by
  refine ⟨?_, ?_, ?_, ?_⟩ <;> decide

/-- C4 amended: the async upload handler rejects every non-final part
shorter than CHUNK_SIZE with the malformed-part error and no write (given
total_parts within the count limit, whose check precedes it); the
multithread handler never rejects anything — every call returns a success
response. -/
theorem C4_short_nonfinal (fs : FS) (name : String) (payload : Bytes) (pn tp : Int) :
    (payload.length < CHUNK_SIZE → pn < tp → tp ≤ (MAX_PARTS : Int) →
      upload_part_async fs name payload pn tp =
        (fs, .error (.http 400 "Each part except the last must be exactly 1 MB."))) ∧
    (∃ fs' r, upload_part_mt fs name payload pn tp = (fs', .ok r)) := by
  constructor
  · intro h1 h2 h3
    exact upload_part_async_short_nonfinal fs name payload pn tp h3 h1 h2
  · by_cases h : pn = tp
    · exact ⟨writeLoop fs (pathJoin UPLOAD_FOLDER name) payload, ⟨.complete, name⟩,
        by simp [upload_part_mt, h]⟩
    · exact ⟨writeLoop fs (pathJoin UPLOAD_FOLDER name) payload,
        ⟨.partUploaded pn tp, name⟩, by simp [upload_part_mt, h]⟩

theorem C4_short_nonfinal_witness :
    ([1, 2] : Bytes).length < CHUNK_SIZE ∧ (1 : Int) < 2 ∧ (2 : Int) ≤ (MAX_PARTS : Int) ∧
    upload_part_async [] "s" [1, 2] 1 2 =
      ([], .error (.http 400 "Each part except the last must be exactly 1 MB.")) :=
  ⟨by decide, by decide, by decide,
   (C4_short_nonfinal [] "s" [1, 2] 1 2).1 (by decide) (by decide) (by decide)⟩

/-- C5 counterexample: the claim says a part pushing the cumulative size
over MAX_FILE_SIZE is rejected; the multithread upload handler has no
quota (MAX_FILE_SIZE does not even exist in that source file), so a
one-byte part appended to a file already at the limit succeeds and the
stored file grows past MAX_FILE_SIZE. -/
theorem C5_counterexample :
    MAX_FILE_SIZE <
      ((lookupFS fsBig (pathJoin UPLOAD_FOLDER "big.bin")).getD []).length
        + ([0] : Bytes).length ∧
    (upload_part_mt fsBig "big.bin" [0] 1 1).2 = .ok ⟨.complete, "big.bin"⟩ ∧
    lookupFS (upload_part_mt fsBig "big.bin" [0] 1 1).1
      (pathJoin UPLOAD_FOLDER "big.bin") =
      some (List.replicate MAX_FILE_SIZE (0 : Nat) ++ [0]) := by
  have hpath : pathJoin UPLOAD_FOLDER "big.bin" = "uploads/big.bin" := by decide
  have hlook : lookupFS fsBig (pathJoin UPLOAD_FOLDER "big.bin") =
      some (List.replicate MAX_FILE_SIZE 0) := by
    rw [hpath]
    simp [fsBig, lookupFS]
  refine ⟨?_, by simp [upload_part_mt], ?_⟩
  · rw [hlook, Option.getD_some, List.length_replicate]
    simp only [List.length_cons, List.length_nil]
    omega
  · have h := writeLoop_lookup fsBig (pathJoin UPLOAD_FOLDER "big.bin") [0] (by decide)
    have hsel : (upload_part_mt fsBig "big.bin" [0] 1 1).1 =
        writeLoop fsBig (pathJoin UPLOAD_FOLDER "big.bin") [0] := by
      simp [upload_part_mt]
    rw [hsel, h, hlook]
    rfl

/-- C5 amended: in the async variant the claim holds as stated — a part
whose addition would cross MAX_FILE_SIZE is rejected with the
quota-exceeded error exactly then (a part keeping the total within the
limit is appended), and every validation rejection returns the store
unchanged; the multithread variant enforces no cumulative limit at all. -/
theorem C5_quota (fs : FS) (name : String) (payload : Bytes) (pn tp : Int) :
    (tp ≤ (MAX_PARTS : Int) → payload.length ≤ CHUNK_SIZE →
     (pn < tp → payload.length = CHUNK_SIZE) →
     MAX_FILE_SIZE < ((lookupFS fs (pathJoin UPLOAD_FOLDER name)).getD []).length
         + payload.length →
       upload_part_async fs name payload pn tp =
         (fs, .error (.http 413 "Total file size exceeds the allowed limit of 100 MB."))) ∧
    (tp ≤ (MAX_PARTS : Int) → payload.length ≤ CHUNK_SIZE →
     (pn < tp → payload.length = CHUNK_SIZE) →
     ((lookupFS fs (pathJoin UPLOAD_FOLDER name)).getD []).length + payload.length
         ≤ MAX_FILE_SIZE →
       ∃ r, upload_part_async fs name payload pn tp =
         (appendAssoc fs (pathJoin UPLOAD_FOLDER name) payload, .ok r)) ∧
    (∀ e, (upload_part_async fs name payload pn tp).2 = .error e →
       (upload_part_async fs name payload pn tp).1 = fs) := by
  refine ⟨?_, ?_, ?_⟩
  · intro h1 h2 h3 h4
    exact upload_part_async_quota fs name payload pn tp h1 h2 h3 h4
  · intro h1 h2 h3 h4
    exact ⟨_, upload_part_async_accepts fs name payload pn tp h1 h2 h3 h4⟩
  · intro e
    exact upload_part_async_error_state fs name payload pn tp e

theorem C5_quota_witness :
    MAX_FILE_SIZE <
      ((lookupFS fsBig (pathJoin UPLOAD_FOLDER "big.bin")).getD []).length
        + ([0] : Bytes).length ∧
    upload_part_async fsBig "big.bin" [0] 1 1 =
      (fsBig, .error (.http 413 "Total file size exceeds the allowed limit of 100 MB.")) := by
  have hpath : pathJoin UPLOAD_FOLDER "big.bin" = "uploads/big.bin" := by decide
  have hlook : lookupFS fsBig (pathJoin UPLOAD_FOLDER "big.bin") =
      some (List.replicate MAX_FILE_SIZE 0) := by
    rw [hpath]
    simp [fsBig, lookupFS]
  have hsize : MAX_FILE_SIZE <
      ((lookupFS fsBig (pathJoin UPLOAD_FOLDER "big.bin")).getD []).length
        + ([0] : Bytes).length := by
    rw [hlook, Option.getD_some, List.length_replicate]
    simp only [List.length_cons, List.length_nil]
    omega
  exact ⟨hsize, (C5_quota fsBig "big.bin" [0] 1 1).1 (by decide) (by decide)
    (by intro h; exact absurd h (by decide)) hsize⟩

/-- C6: for a sequence of UploadPart calls for parts 1..N of one fresh
destination, each part obeying the validator rules, every call succeeds,
the completion message appears exactly on the call whose part number
equals total_parts, and the stored file's final size is the sum of all
payload lengths (its content is the concatenation of the parts).  This
holds for the async variant modelled here; the multithread variant
likewise appends every valid part and reports completion on the same
condition. -/
theorem C6_upload_sequence (fs : FS) (name : String) (parts : List Bytes) :
    lookupFS fs (pathJoin UPLOAD_FOLDER name) = none →
    parts ≠ [] →
    (parts.length : Int) ≤ (MAX_PARTS : Int) →
    (∀ p ∈ parts, p.length ≤ CHUNK_SIZE) →
    (∀ i, i < parts.length → 1 + (i : Int) < (parts.length : Int) →
        (parts.getD i []).length = CHUNK_SIZE) →
    (parts.map List.length).sum ≤ MAX_FILE_SIZE →
    ((uploadRun fs name (parts.length : Int) 1 parts).2.length = parts.length ∧
     (∀ i, i < parts.length →
        (uploadRun fs name (parts.length : Int) 1 parts).2.getD i (.error (.http 0 "")) =
          .ok ⟨if 1 + (i : Int) = (parts.length : Int) then .complete
               else .partUploaded (1 + (i : Int)) (parts.length : Int), name⟩) ∧
     (∀ i, i < parts.length →
        ((uploadRun fs name (parts.length : Int) 1 parts).2.getD i (.error (.http 0 "")) =
            .ok ⟨.complete, name⟩ ↔ i + 1 = parts.length)) ∧
     lookupFS (uploadRun fs name (parts.length : Int) 1 parts).1
         (pathJoin UPLOAD_FOLDER name) = some parts.flatten ∧
     parts.flatten.length = (parts.map List.length).sum) := by
  intro hnone hne hmax hlen hfull hquota
  have hcount : (1 : Int) + (parts.length : Int) = (parts.length : Int) + 1 := by ring
  have hquota' : ((lookupFS fs (pathJoin UPLOAD_FOLDER name)).getD []).length
      + (parts.map List.length).sum ≤ MAX_FILE_SIZE := by
    rw [hnone]
    simpa using hquota
  obtain ⟨h1, h2, h3, _⟩ := uploadRun_ok name (parts.length : Int) parts fs 1
    hmax hcount hlen hfull hquota'
  refine ⟨h1, h2, ?_, ?_, ?_⟩
  · intro i hi
    rw [h2 i hi]
    by_cases hcond : 1 + (i : Int) = (parts.length : Int)
    · simp only [if_pos hcond]
      constructor
      · intro _
        omega
      · intro _
        trivial
    · simp only [if_neg hcond]
      constructor
      · intro hcontra
        simp at hcontra
      · intro hnat
        exfalso
        apply hcond
        omega
  · have hl := h3 hne
    rw [hnone] at hl
    simpa using hl
  · exact List.length_flatten parts

theorem C6_upload_sequence_witness :
    lookupFS [] (pathJoin UPLOAD_FOLDER "a.txt") = none ∧
    ([[7]] : List Bytes) ≠ [] ∧
    (uploadRun [] "a.txt" 1 1 [[7]]).2.getD 0 (.error (.http 0 "")) =
      .ok ⟨.complete, "a.txt"⟩ ∧
    lookupFS (uploadRun [] "a.txt" 1 1 [[7]]).1 (pathJoin UPLOAD_FOLDER "a.txt") =
      some [7] := by
  have h := C6_upload_sequence [] "a.txt" [[7]] rfl (by decide) (by decide)
    (by decide) (by intro i hi hlt; simp at hi hlt; omega) (by decide)
  refine ⟨rfl, by decide, ?_, ?_⟩
  · have h2 := h.2.1 0 (by decide)
    simpa using h2
  · have h3 := h.2.2.2.1
    simpa using h3

/-- C7: DownloadFile on a stored file of size S yields the ordered chunk
sequence whose concatenation is the stored content, whose lengths sum to
S, each chunk at most CHUNK_SIZE with every chunk but the last exactly
CHUNK_SIZE, and a not-found error when the file is absent; composing with
an upload of valid parts 1..N reproduces exactly the concatenated part
bytes.  The download logic is identical in both source files. -/
theorem C7_download_stream (fs : FS) (name : String) :
    (lookupFS fs (pathJoin UPLOAD_FOLDER name) = none →
      download_file fs name = .error (.http 404 "File not found")) ∧
    (∀ content, lookupFS fs (pathJoin UPLOAD_FOLDER name) = some content →
      download_file fs name = .ok (downloadChunks content, content.length, name) ∧
      (downloadChunks content).flatten = content ∧
      ((downloadChunks content).map List.length).sum = content.length ∧
      (∀ ch ∈ downloadChunks content, ch.length ≤ CHUNK_SIZE) ∧
      (∀ i, i + 1 < (downloadChunks content).length →
        ((downloadChunks content).getD i []).length = CHUNK_SIZE)) ∧
    (∀ parts : List Bytes,
      lookupFS fs (pathJoin UPLOAD_FOLDER name) = none → parts ≠ [] →
      (parts.length : Int) ≤ (MAX_PARTS : Int) →
      (∀ p ∈ parts, p.length ≤ CHUNK_SIZE) →
      (∀ i, i < parts.length → 1 + (i : Int) < (parts.length : Int) →
          (parts.getD i []).length = CHUNK_SIZE) →
      (parts.map List.length).sum ≤ MAX_FILE_SIZE →
      download_file (uploadRun fs name (parts.length : Int) 1 parts).1 name =
        .ok (downloadChunks parts.flatten, parts.flatten.length, name) ∧
      (downloadChunks parts.flatten).flatten = parts.flatten) := by
  have hc : 0 < CHUNK_SIZE := by decide
  refine ⟨?_, ?_, ?_⟩
  · intro h
    unfold download_file
    dsimp only
    rw [h]
  · intro content h
    refine ⟨?_, ?_, ?_, ?_, ?_⟩
    · unfold download_file
      dsimp only
      rw [h]
    · exact chunksBy_flatten CHUNK_SIZE hc content
    · exact chunksBy_sum CHUNK_SIZE hc content
    · exact chunksBy_mem_le CHUNK_SIZE hc content.length content le_rfl
    · exact chunksBy_nonfinal CHUNK_SIZE hc content.length content le_rfl
  · intro parts hnone hne hmax hlen hfull hquota
    have hcount : (1 : Int) + (parts.length : Int) = (parts.length : Int) + 1 := by ring
    have hquota' : ((lookupFS fs (pathJoin UPLOAD_FOLDER name)).getD []).length
        + (parts.map List.length).sum ≤ MAX_FILE_SIZE := by
      rw [hnone]
      simpa using hquota
    obtain ⟨_, _, h3, _⟩ := uploadRun_ok name (parts.length : Int) parts fs 1
      hmax hcount hlen hfull hquota'
    have hlook : lookupFS (uploadRun fs name (parts.length : Int) 1 parts).1
        (pathJoin UPLOAD_FOLDER name) = some parts.flatten := by
      have hl := h3 hne
      rw [hnone] at hl
      simpa using hl
    refine ⟨?_, chunksBy_flatten CHUNK_SIZE hc parts.flatten⟩
    unfold download_file
    dsimp only
    rw [hlook]

theorem C7_download_stream_witness :
    lookupFS fsSingle (pathJoin UPLOAD_FOLDER "a.txt") = some [1, 2, 3] ∧
    download_file fsSingle "a.txt" = .ok ([[1, 2, 3]], 3, "a.txt") ∧
    ([[1, 2, 3]] : List Bytes).flatten = [1, 2, 3] := by
  have h := (C7_download_stream fsSingle "a.txt").2.1 [1, 2, 3] (by decide)
  refine ⟨by decide, ?_, by decide⟩
  rw [h.1]
  decide
